import Mathlib

/-!
Verification of the cjdns SessionManager (src/net/SessionManager.c).

This file gives a shallow embedding of the session-management core:
the dual-indexed session table, the buffered-message queue with its
timeout sweeper, the ingress pipeline (switch to inside), the egress
pipeline (inside to switch) and the NODE event handler, together with
theorems about each.

Modelling conventions:
  * 16-byte IPv6 addresses and 32-byte public keys are abstracted to
    natural-number identifiers (their byte structure is never inspected
    by the code under study, except through the external
    AddressCalc_addressForPublicKey derivation, which is passed in as
    an oracle function).  The all-zero public key is encoded as 0.
  * Machine integers are natural numbers; where the C performs uint32
    wrap-around arithmetic that matters (handle arithmetic), an
    explicit mod 2^32 is used.
  * External collaborators (CryptoAuth encrypt/decrypt verdicts, the
    random source, clocks) are inputs to the functions that consult
    them, mirroring the single-threaded event-loop model.
  * The two cjdns Map.h instances (bufMap keyed by ip6, ifaceMap keyed
    by ip6 with handles enabled) are modelled as association lists in
    insertion order: indexForKey is the first index whose key matches,
    put appends at the end, remove deletes in place preserving order
    (Map.h shifts the tail down with memmove), and the handle counter
    `nextHandle` is incremented on every put, the stored handle of an
    entry being its value of the counter at insertion time.
-/

namespace CjdnsSM

/-- Abstract 16-byte IPv6 address (derived from a public key). -/
abbrev Ip6 := Nat

/-- Abstract 32-byte public key; 0 encodes the all-zero key. -/
abbrev Key := Nat

/-- 2^32, the modulus of uint32 arithmetic. -/
def U32_MOD : Nat := 4294967296

/-- Wire size of struct SwitchHeader (12 bytes, from wire/SwitchHeader.h). -/
def SwitchHeader_SIZE : Nat := 12

/-- Wire size of union CryptoHeader (120 bytes, from wire/CryptoHeader.h). -/
def CryptoHeader_SIZE : Nat := 120

/-- Wire size of struct RouteHeader (68 bytes, from wire/RouteHeader.h):
32 bytes of public key, then the 12-byte switch header at offset 32,
then version, ip6 and padding. -/
def RouteHeader_SIZE : Nat := 68

/-- Byte offset of the switch-header field `sh` inside struct RouteHeader. -/
def RouteHeader_sh_OFFSET : Nat := 32

/-- Handle numbers 0-3 are reserved for CryptoAuth nonces (SessionManager.c line 27). -/
def MIN_FIRST_HANDLE : Nat := 4

/-- Upper bound for the random first handle (SessionManager.c line 29). -/
def MAX_FIRST_HANDLE : Nat := 100000

/-- The broadcast destination-pathfinder sentinel 0xffffffff. -/
def BROADCAST_PF : Nat := 4294967295

/-- uint32 subtraction `a - b` with wrap-around, as computed by the C in
`handle - sm->firstHandle`. -/
def sub32 (a b : Nat) : Nat :=
  (a % U32_MOD + U32_MOD - b % U32_MOD) % U32_MOD

/-- One live session (struct SessionManager_Session together with the
handle slot of the ifaceMap entry that owns it).  `mapHandle` is the
Map.h handle assigned at insertion; `receiveHandle` is the value stored
in the public field, `mapHandle + firstHandle` truncated to uint32. -/
structure Session where
  ip6 : Ip6
  publicKey : Key
  mapHandle : Nat
  receiveHandle : Nat
  sendHandle : Nat
  version : Nat
  sendSwitchLabel : Nat
  recvSwitchLabel : Nat
  timeOfCreation : Nat
deriving DecidableEq, Repr

/-- One pending outbound packet (struct BufferedMessage).  `msgId`
abstracts the identity of the owned message; `ip6` is the map key
(the destination in the message's route header). -/
structure BufEntry where
  ip6 : Ip6
  msgId : Nat
  timeSent : Nat
deriving DecidableEq, Repr

/-- Events emitted on the event interface toward the pathfinder
(sendSession and the SEARCH_REQ emission in needsLookup).  All carry a
destination-pathfinder id; the node-shaped ones carry path, version,
ip6 and public key (the metric field is the constant 0xffffffff and is
omitted). -/
inductive Event where
  | session (path : Nat) (destPf : Nat) (version : Nat) (ip6 : Ip6) (publicKey : Key)
  | sessionEnded (path : Nat) (destPf : Nat) (version : Nat) (ip6 : Ip6) (publicKey : Key)
  | discoveredPath (path : Nat) (destPf : Nat) (version : Nat) (ip6 : Ip6) (publicKey : Key)
  | searchReq (destPf : Nat) (ip6 : Ip6)
deriving DecidableEq, Repr

/-- The mutable state of struct SessionManager_pvt: the dual-indexed
session map (ifaceMap, as a list in insertion order plus the Map.h
handle counter), the buffered-message map, the random handle base, our
own public key (sm->ca->publicKey) and the buffer capacity. -/
structure SM where
  sessions : List Session
  nextHandle : Nat
  bufMap : List BufEntry
  firstHandle : Nat
  caPublicKey : Key
  maxBufferedMessages : Nat
deriving DecidableEq, Repr

/-- Map_OfSessionsByIp6_indexForKey followed by the value load:
the first session whose ip6 matches (SessionManager.c lines 142-149). -/
def sessionForIp6 (sm : SM) (ip : Ip6) : Option Session :=
  sm.sessions.find? (fun s => s.ip6 == ip)

/-- Map_OfSessionsByIp6_indexForHandle on `handle - sm->firstHandle`
(uint32 subtraction) followed by the value load
(SessionManager.c lines 126-133). -/
def sessionForHandle (sm : SM) (handle : Nat) : Option Session :=
  sm.sessions.find? (fun s => s.mapHandle == sub32 handle sm.firstHandle)

/-- In-place mutation of the session object stored for `ip`:
the entry whose key is `ip` is replaced by `v`. -/
def updateSessionValue (sm : SM) (ip : Ip6) (v : Session) : SM :=
  { sm with sessions := sm.sessions.map (fun t => if t.ip6 == ip then v else t) }

/-- The zero-fill merge performed on an existing session
(SessionManager.c lines 182-183): version is overwritten only if it was
zero, sendSwitchLabel only if it was zero. -/
def fillSession (version label : Nat) (s : Session) : Session :=
  { s with
    version := if s.version = 0 then version else s.version
    sendSwitchLabel := if s.sendSwitchLabel = 0 then label else s.sendSwitchLabel }

/-- getSession (SessionManager.c lines 174-203).  If a session for the
ip6 already exists it is merged with `fillSession` and returned with no
event.  Otherwise a new session is allocated, inserted (Map put, which
assigns the next map handle), its receiveHandle set to
`handles[index] + firstHandle` (uint32 add), and exactly one SESSION
event is emitted with the creation-time field values. -/
def getSession (sm : SM) (ip : Ip6) (pubKey : Key) (version : Nat) (label : Nat)
    (now : Nat) : SM × Session × List Event :=
  match sessionForIp6 sm ip with
  | some s =>
      (updateSessionValue sm ip (fillSession version label s), fillSession version label s, [])
  | none =>
      let newS : Session :=
        { ip6 := ip
          publicKey := pubKey
          mapHandle := sm.nextHandle
          receiveHandle := (sm.nextHandle + sm.firstHandle) % U32_MOD
          sendHandle := 0
          version := version
          sendSwitchLabel := label
          recvSwitchLabel := 0
          timeOfCreation := now }
      ({ sm with sessions := sm.sessions ++ [newS], nextHandle := sm.nextHandle + 1 },
       newS,
       [Event.session label BROADCAST_PF version ip pubKey])

/-- SessionManager_new (SessionManager.c lines 522-555): empty maps and
a random first handle `rand % (MAX_FIRST_HANDLE - MIN_FIRST_HANDLE) +
MIN_FIRST_HANDLE` where rand is the uint32 produced by Random_uint32.
The buffer capacity comes from the SessionManager_MAX_BUFFERED_MESSAGES
default define (outside src), kept as a parameter. -/
def SessionManager_new (rand : Nat) (caPublicKey : Key) (maxBuffered : Nat) : SM :=
  { sessions := []
    nextHandle := 0
    bufMap := []
    firstHandle := rand % U32_MOD % (MAX_FIRST_HANDLE - MIN_FIRST_HANDLE) + MIN_FIRST_HANDLE
    caPublicKey := caPublicKey
    maxBufferedMessages := maxBuffered }

/-- Map_BufferedMessages_indexForKey: index of the matching buffered
entry, none when absent.  (The probe order is unobservable because the
map never holds two entries with the same key; the model returns the
first matching index.) -/
def bufIndexForKey : List BufEntry → Ip6 → Option Nat
  | [], _ => none
  | b :: rest, ip =>
    if b.ip6 == ip then some 0 else (bufIndexForKey rest ip).map (· + 1)

/-- The body of checkTimedOutBuffers (SessionManager.c lines 303-314):
a for-loop over the buffer map by index which, when the entry at index
`i` has lagged at least 10 seconds, removes it in place (Map.h remove
shifts the tail down) and decrements `i` so that the following
increment revisits the same slot.  `now` is the wall-clock seconds read
from the event base; `now - timeSent` is the uint64 lag (non-wrapping
whenever timeSent is not in the future, which truncated Nat subtraction
matches). -/
def sweepLoop (now : Nat) : Nat → Nat → List BufEntry → List BufEntry
  | 0, _, buf => buf
  | fuel + 1, i, buf =>
    if h : i < buf.length then
      if now - (buf.get ⟨i, h⟩).timeSent < 10 then
        sweepLoop now fuel (i + 1) buf
      else
        sweepLoop now fuel i (buf.eraseIdx i)
    else
      buf

/-- checkTimedOutBuffers: the sweep loop started at index 0.  The fuel
argument only bounds the number of loop iterations; `buf.length`
iterations always suffice because every iteration either advances the
index or shortens the buffer, so the fueled loop equals the unbounded C
loop (sweepLoop_eq_aux below makes the fuel irrelevance precise). -/
def checkTimedOutBuffers (now : Nat) (buf : List BufEntry) : List BufEntry :=
  sweepLoop now buf.length 0 buf

/-- The supersession step of needsLookup (SessionManager.c lines
324-330): if an entry for the ip already exists it is removed (and its
allocator freed). -/
def bufDropExisting (sm : SM) (ip : Ip6) : SM :=
  match bufIndexForKey sm.bufMap ip with
  | some i => { sm with bufMap := sm.bufMap.eraseIdx i }
  | none => sm

/-- The insertion-and-emission tail of needsLookup (SessionManager.c
lines 339-354): buffer the message with the current time and emit one
SEARCH_REQ event carrying the target ip6. -/
def bufInsert (sm : SM) (now : Nat) (ip : Ip6) (msgId : Nat) : SM × List Event :=
  ({ sm with bufMap := sm.bufMap ++ [{ ip6 := ip, msgId := msgId, timeSent := now }] },
   [Event.searchReq BROADCAST_PF ip])

/-- needsLookup (SessionManager.c lines 316-355).  Drops any existing
entry for the same ip first; if the map is at or above capacity, runs
the expired-entry sweep, and if still at or above capacity drops the
new packet with no event; otherwise inserts and emits SEARCH_REQ. -/
def needsLookup (sm : SM) (now : Nat) (ip : Ip6) (msgId : Nat) : SM × List Event :=
  let sm1 := bufDropExisting sm ip
  if sm1.maxBufferedMessages ≤ sm1.bufMap.length then
    let sm2 := { sm1 with bufMap := checkTimedOutBuffers now sm1.bufMap }
    if sm2.maxBufferedMessages ≤ sm2.bufMap.length then
      (sm2, [])
    else
      bufInsert sm2 now ip msgId
  else
    bufInsert sm1 now ip msgId

/-- The path-tracking epilogue of incomingFromSwitchIf
(SessionManager.c lines 291-298), acting on the session the packet was
decrypted on, where `path` is the ingress switch label: fill
sendSwitchLabel if it was zero; if the label differs from
recvSwitchLabel, record it and emit one DISCOVERED_PATH event. -/
def trackPath (s : Session) (path : Nat) : Session × List Event :=
  let s1 := if s.sendSwitchLabel = 0 then { s with sendSwitchLabel := path } else s
  if path ≠ s1.recvSwitchLabel then
    ({ s1 with recvSwitchLabel := path },
     [Event.discoveredPath path BROADCAST_PF s1.version s1.ip6 s1.publicKey])
  else
    (s1, [])

/-- An ingress packet from the switch, as the fields inspected by
incomingFromSwitchIf: total length on entry, the switch-header label
(host order), the first four bytes after the switch header (big-endian
uint32, a handle if > 3 and a handshake nonce otherwise), the public
key embedded in the handshake header (meaningful only in the nonce
case), the verdict of the external CryptoAuth_decrypt on this packet,
and the first four decrypted bytes (the peer handle popped in the
setup case). -/
structure SwitchPacket where
  length : Nat
  label : Nat
  nonceOrHandle : Nat
  herKey : Key
  decryptOk : Bool
  sendHandle : Nat
deriving DecidableEq, Repr

/-- The decrypted packet forwarded up the inside interface: the route
header fields written by incomingFromSwitchIf (lines 269-289). -/
structure Forwarded where
  ip6 : Ip6
  publicKey : Key
  version : Nat
  label : Nat
deriving DecidableEq, Repr

/-- The post-lookup tail of incomingFromSwitchIf (lines 254-300):
decrypt (drop on failure, keeping any state change and events that
already happened), learn the send handle on a setup message, populate
the route header from the session, track the path and forward. -/
def finishIngress (sm : SM) (evs : List Event) (sess : Session) (p : SwitchPacket)
    (setup : Bool) : SM × List Event × Option Forwarded :=
  if p.decryptOk then
    let sess1 := if setup then { sess with sendHandle := p.sendHandle } else sess
    let fwd : Forwarded :=
      { ip6 := sess1.ip6, publicKey := sess1.publicKey
        version := sess1.version, label := p.label }
    let (sess2, pevs) := trackPath sess1 p.label
    (updateSessionValue sm sess.ip6 sess2, evs ++ pevs, some fwd)
  else
    (sm, evs, none)

/-- incomingFromSwitchIf (SessionManager.c lines 205-301).
`addrForKey` is the external AddressCalc_addressForPublicKey: none when
the key is not a valid overlay (fc) key, otherwise the derived ip6. -/
def incomingFromSwitchIf (addrForKey : Key → Option Ip6) (now : Nat) (sm : SM)
    (p : SwitchPacket) : SM × List Event × Option Forwarded :=
  if p.length < SwitchHeader_SIZE + 4 + 20 then
    (sm, [], none)
  else if 3 < p.nonceOrHandle then
    match sessionForHandle sm p.nonceOrHandle with
    | none => (sm, [], none)
    | some sess => finishIngress sm [] sess p false
  else if p.length - SwitchHeader_SIZE < CryptoHeader_SIZE + 4 then
    (sm, [], none)
  else
    match addrForKey p.herKey with
    | none => (sm, [], none)
    | some ip =>
      if p.herKey = sm.caPublicKey then
        (sm, [], none)
      else
        let (sm1, sess, evs) := getSession sm ip p.herKey 0 p.label now
        finishIngress sm1 evs sess p true

/-- An egress packet on the inside interface, as the route-header
fields inspected by incomingFromInsideIf: destination ip6, public key
(0 encodes the all-zero key tested by Bits_isZero), version and switch
label in host order, plus an abstract identity for the payload. -/
structure RouteHeaderMsg where
  ip6 : Ip6
  publicKey : Key
  version : Nat
  label : Nat
  msgId : Nat
deriving DecidableEq, Repr

/-- A packet handed to readyToSend and hence emitted on the switch
interface: which message, for which session ip6, under which switch
label in its route header. -/
structure SendInfo where
  ip6 : Ip6
  label : Nat
  msgId : Nat
deriving DecidableEq, Repr

/-- The tail of incomingFromInsideIf after the session is in hand
(SessionManager.c lines 423-434): overwrite the session version when
the header carries one, then choose the switch label -- the header's
if nonzero, else the session's sendSwitchLabel if nonzero, else
enqueue for lookup and send nothing. -/
def egressFinish (sm : SM) (now : Nat) (evs : List Event) (sess : Session)
    (rh : RouteHeaderMsg) : SM × List Event × Option SendInfo :=
  let sess1 := if rh.version ≠ 0 then { sess with version := rh.version } else sess
  let sm1 := updateSessionValue sm sess.ip6 sess1
  if rh.label ≠ 0 then
    (sm1, evs, some { ip6 := rh.ip6, label := rh.label, msgId := rh.msgId })
  else if sess1.sendSwitchLabel ≠ 0 then
    (sm1, evs, some { ip6 := rh.ip6, label := sess1.sendSwitchLabel, msgId := rh.msgId })
  else
    let (sm2, evs2) := needsLookup sm1 now rh.ip6 rh.msgId
    (sm2, evs ++ evs2, none)

/-- incomingFromInsideIf (SessionManager.c lines 402-435). -/
def incomingFromInsideIf (now : Nat) (sm : SM) (rh : RouteHeaderMsg) :
    SM × List Event × Option SendInfo :=
  match sessionForIp6 sm rh.ip6 with
  | some sess => egressFinish sm now [] sess rh
  | none =>
    if rh.publicKey ≠ 0 then
      let (sm1, sess, evs) := getSession sm rh.ip6 rh.publicKey rh.version rh.label now
      egressFinish sm1 now evs sess rh
    else
      let (sm1, evs) := needsLookup sm now rh.ip6 rh.msgId
      (sm1, evs, none)

/-- The node record popped from a NODE event (struct PFChan_Node, with
path and version already converted to host order). -/
structure NodeRecord where
  ip6 : Ip6
  publicKey : Key
  path : Nat
  version : Nat
deriving DecidableEq, Repr

/-- The NODE case of incomingFromEventIf (SessionManager.c lines
491-519).  With no buffered message for the ip6, only an existing
session is updated (no auto-create); with a buffered message, the
session is created-or-merged through getSession, the buffered packet
is run through readyToSend (modelled as the returned message id) and
its map entry is removed and freed. -/
def incomingFromEventIf_NODE (now : Nat) (sm : SM) (node : NodeRecord) :
    SM × List Event × Option Nat :=
  match bufIndexForKey sm.bufMap node.ip6 with
  | none =>
    match sessionForIp6 sm node.ip6 with
    | none => (sm, [], none)
    | some sess =>
      (updateSessionValue sm node.ip6
        { sess with sendSwitchLabel := node.path, version := node.version },
       [], none)
  | some i =>
    match sm.bufMap[i]? with
    | none => (sm, [], none)
    | some bm =>
      let (sm1, _sess, evs) := getSession sm node.ip6 node.publicKey node.version node.path now
      ({ sm1 with bufMap := sm1.bufMap.eraseIdx i }, evs, some bm.msgId)

/-!
Byte-level model of struct Message for the readyToSend layout claim.
A message is a byte buffer split at the front pointer: `pre` is the
headroom before msg->bytes (in address order) and `post` is the bytes
from msg->bytes to the end.  Message_shift(k) with k > 0 moves the
front pointer down by k bytes (growing the message); with k < 0 it
moves it up (shrinking the message).
-/

/-- A cjdns struct Message: headroom bytes before the front pointer,
then the message bytes. -/
structure CMessage where
  pre : List Nat
  post : List Nat
deriving DecidableEq, Repr

/-- Message_shift with a negative amount: drop `k` bytes off the front
into the headroom. -/
def msgShiftUp (m : CMessage) (k : Nat) : CMessage :=
  { pre := m.pre ++ m.post.take k, post := m.post.drop k }

/-- Message_shift with a positive amount: expose `k` bytes of headroom
at the front. -/
def msgShiftDown (m : CMessage) (k : Nat) : CMessage :=
  { pre := m.pre.take (m.pre.length - k), post := m.pre.drop (m.pre.length - k) ++ m.post }

/-- Big-endian bytes of a uint32. -/
def be32 (v : Nat) : List Nat :=
  [v / 16777216 % 256, v / 65536 % 256, v / 256 % 256, v % 256]

/-- Message_push32: shift down 4 bytes and write the value big-endian
at the front. -/
def msgPush32 (m : CMessage) (v : Nat) : CMessage :=
  { pre := m.pre.take (m.pre.length - 4), post := be32 v ++ m.post }

/-- Overwrite the first bytes of the message with `chunk`
(Bits_memcpyConst to msg->bytes). -/
def msgWriteFront (m : CMessage) (chunk : List Nat) : CMessage :=
  { m with post := chunk ++ m.post.drop chunk.length }

/-- Modelled from the spec: the external CryptoAuth_encrypt contract in
a pre-HANDSHAKE3 state (spec section 4.D steps 6-7 and section 1 scope:
the crypto primitive is an external collaborator).  Encrypting in place
replaces the plaintext with equal-length ciphertext and prepends a
CryptoHeader_SIZE-byte handshake header; `cipher` is the resulting
front region (header plus ciphertext), of length
CryptoHeader_SIZE + plaintext length. -/
def encryptHandshake (m : CMessage) (cipher : List Nat) : CMessage :=
  { pre := m.pre.take (m.pre.length - CryptoHeader_SIZE), post := cipher }

/-- The pre-encryption stage of readyToSend's pre-HANDSHAKE3 branch
(SessionManager.c lines 361-372): strip the route header, push the
session's receiveHandle, reserve CryptoHeader_SIZE + SwitchHeader_SIZE
bytes in front, copy the switch header into the reserved region, and
shift back to the plaintext front.

Modelled from the spec: the copy source.  Line 370 of the C reads
`header->sh` where `header` is not in scope in this branch (it is
declared only in the else branch); per spec section 9 the intent is to
copy the switch header out of the route header that still sits
immediately before the message front, at offset RouteHeader_sh_OFFSET
within it. -/
def readyToSendPreStage (m : CMessage) (receiveHandle : Nat) : CMessage :=
  let sh := (m.post.drop RouteHeader_sh_OFFSET).take SwitchHeader_SIZE
  let m1 := msgShiftUp m RouteHeader_SIZE
  let m2 := msgPush32 m1 receiveHandle
  let m3 := msgShiftDown m2 (CryptoHeader_SIZE + SwitchHeader_SIZE)
  let m4 := msgWriteFront m3 sh
  msgShiftUp m4 (CryptoHeader_SIZE + SwitchHeader_SIZE)

/-- The whole pre-HANDSHAKE3 path of readyToSend (lines 361-399 with
state < HANDSHAKE3): the pre-encryption stage, the in-place handshake
encryption, no send-handle push, and the final shift that exposes the
switch header at the message front. -/
def readyToSendPreHs3 (m : CMessage) (receiveHandle : Nat) (cipher : List Nat) : CMessage :=
  msgShiftDown (encryptHandshake (readyToSendPreStage m receiveHandle) cipher)
    SwitchHeader_SIZE

/-- The handle bookkeeping invariant of the session table: every
session's map handle was assigned below the current counter, its
public receiveHandle is the uint32 sum of its map handle and the
manager's random base, map handles and ip6 keys are duplicate-free,
and the base lies in [MIN_FIRST_HANDLE, MAX_FIRST_HANDLE). -/
def HandleInv (sm : SM) : Prop :=
  (∀ s ∈ sm.sessions,
      s.mapHandle < sm.nextHandle ∧
      s.receiveHandle = (s.mapHandle + sm.firstHandle) % U32_MOD) ∧
  (sm.sessions.map (fun s => s.mapHandle)).Nodup ∧
  (sm.sessions.map (fun s => s.ip6)).Nodup ∧
  MIN_FIRST_HANDLE ≤ sm.firstHandle ∧ sm.firstHandle < MAX_FIRST_HANDLE

/-- The states a SessionManager can be in: freshly constructed, or the
result of processing one more switch packet, inside packet, NODE event
or timeout tick.  (No live code path ever removes a session.) -/
inductive Reachable : SM → Prop where
  | new (rand caPublicKey maxBuffered : Nat) :
      Reachable (SessionManager_new rand caPublicKey maxBuffered)
  | fromSwitch (addrForKey : Key → Option Ip6) (now : Nat) (p : SwitchPacket) {sm : SM} :
      Reachable sm → Reachable (incomingFromSwitchIf addrForKey now sm p).1
  | fromInside (now : Nat) (rh : RouteHeaderMsg) {sm : SM} :
      Reachable sm → Reachable (incomingFromInsideIf now sm rh).1
  | nodeEvent (now : Nat) (node : NodeRecord) {sm : SM} :
      Reachable sm → Reachable (incomingFromEventIf_NODE now sm node).1
  | timeoutTick (now : Nat) {sm : SM} :
      Reachable sm → Reachable { sm with bufMap := checkTimedOutBuffers now sm.bufMap }

/-!  Theorems. -/

/-- The sweep loop, started at index `i`, keeps the prefix before `i`
and filters the rest: the index bookkeeping (decrement after an
in-place removal) never skips a surviving entry and never revisits a
kept one. -/
theorem sweepLoop_eq_aux (now : Nat) : ∀ (n i : Nat) (buf : List BufEntry),
    buf.length - i ≤ n →
    sweepLoop now n i buf =
      buf.take i ++ (buf.drop i).filter (fun b => now - b.timeSent < 10) := by
  intro n
  induction n with
  | zero =>
    intro i buf h
    have hle : buf.length ≤ i := by omega
    rw [sweepLoop, List.take_of_length_le hle, List.drop_eq_nil_of_le hle]
    simp
  | succ n ih =>
    intro i buf h
    rw [sweepLoop]
    by_cases hi : i < buf.length
    · rw [dif_pos hi]
      by_cases hp : now - (buf.get ⟨i, hi⟩).timeSent < 10
      · rw [if_pos hp, ih (i + 1) buf (by omega)]
        have hd : buf.drop i = buf[i] :: buf.drop (i + 1) := List.drop_eq_getElem_cons hi
        have hpb : (decide (now - buf[i].timeSent < 10)) = true := by
          simpa [List.get_eq_getElem] using hp
        rw [hd, List.filter_cons, hpb, List.take_succ, List.getElem?_eq_getElem hi,
          if_pos (rfl : (true : Bool) = true)]
        simp only [Option.toList_some, List.append_assoc, List.singleton_append]
      · rw [if_neg hp]
        have hlen : (buf.eraseIdx i).length = buf.length - 1 := by
          rw [List.length_eraseIdx]; simp [hi]
        rw [ih i (buf.eraseIdx i) (by omega), List.eraseIdx_eq_take_drop_succ]
        have hlt : (buf.take i).length = i := by rw [List.length_take]; omega
        have h1 : ((List.take i buf ++ List.drop (i + 1) buf).take i) = buf.take i := by
          rw [List.take_append_eq_append_take, hlt, List.take_take]
          simp
        have h2 : ((List.take i buf ++ List.drop (i + 1) buf).drop i) = buf.drop (i + 1) := by
          rw [List.drop_append_eq_append_drop, hlt, List.drop_eq_nil_of_le (le_of_eq hlt)]
          simp
        rw [h1, h2]
        have hd : buf.drop i = buf[i] :: buf.drop (i + 1) := List.drop_eq_getElem_cons hi
        have hpb : (decide (now - buf[i].timeSent < 10)) = false := by
          simpa [List.get_eq_getElem] using hp
        rw [hd, List.filter_cons, hpb]
        simp
    · rw [dif_neg hi]
      have hle : buf.length ≤ i := by omega
      rw [List.take_of_length_le hle, List.drop_eq_nil_of_le hle]
      simp

/-- C3: for every invocation of checkTimedOutBuffers at time `now`,
every buffered entry whose lag `now - enqueued_at` is at least 10
seconds is removed, every entry with a smaller lag is retained, and the
index-juggling iteration drops or keeps each entry exactly once (the
result is precisely the in-order filter of the buffer). -/
theorem C3_checkTimedOutBuffers_sweep (now : Nat) (buf : List BufEntry) :
    checkTimedOutBuffers now buf = buf.filter (fun b => now - b.timeSent < 10) ∧
    ∀ b : BufEntry, b ∈ checkTimedOutBuffers now buf ↔ b ∈ buf ∧ now - b.timeSent < 10 := by
  have h := sweepLoop_eq_aux now buf.length 0 buf (by omega)
  have h0 : checkTimedOutBuffers now buf = buf.filter (fun b => now - b.timeSent < 10) := by
    simpa [checkTimedOutBuffers] using h
  refine ⟨h0, ?_⟩
  intro b
  rw [h0]
  simp [List.mem_filter]

/-- trackPath only touches the two switch-label fields. -/
theorem trackPath_preserves (s : Session) (path : Nat) :
    (trackPath s path).1.ip6 = s.ip6 ∧
    (trackPath s path).1.publicKey = s.publicKey ∧
    (trackPath s path).1.mapHandle = s.mapHandle ∧
    (trackPath s path).1.receiveHandle = s.receiveHandle ∧
    (trackPath s path).1.version = s.version ∧
    (trackPath s path).1.sendHandle = s.sendHandle ∧
    (trackPath s path).1.timeOfCreation = s.timeOfCreation := by
  unfold trackPath
  by_cases h0 : s.sendSwitchLabel = 0 <;>
    by_cases h1 : path = s.recvSwitchLabel <;>
      simp [h0, h1]

/-- Replacing the stored session for `ip` by a value keyed at `ip`
changes exactly the result of the ip6 lookup. -/
theorem find?_update_list (l : List Session) (ip : Ip6) (v : Session) (hv : v.ip6 = ip) :
    (l.map (fun t => if t.ip6 == ip then v else t)).find? (fun s => s.ip6 == ip) =
      if (l.find? (fun s => s.ip6 == ip)).isSome then some v else none := by
  induction l with
  | nil => simp
  | cons a l ih =>
    by_cases ha : a.ip6 = ip
    · simp [List.find?_cons, ha, hv]
    · simpa [List.find?_cons, ha] using ih

/-- sessionForIp6 after updateSessionValue at the same key. -/
theorem sessionForIp6_update (sm : SM) (ip : Ip6) (v : Session) (hv : v.ip6 = ip) :
    sessionForIp6 (updateSessionValue sm ip v) ip =
      if (sessionForIp6 sm ip).isSome then some v else none := by
  simpa [sessionForIp6, updateSessionValue] using find?_update_list sm.sessions ip v hv

/-- C5: for every successfully decrypted ingress packet with switch
label L on session S: sendSwitchLabel is set to L only when it was
zero; when L differs from recvSwitchLabel, recvSwitchLabel becomes L
and exactly one DISCOVERED_PATH event with path L is emitted, and when
it is equal no event is emitted; afterwards recvSwitchLabel always
equals L, the label of the most recent decrypted packet -- and the
session the manager stores after finishIngress on a decryptable packet
is exactly this trackPath result. -/
theorem C5_path_tracking (p : SwitchPacket) (sess : Session) :
    ((trackPath sess p.label).1.recvSwitchLabel = p.label) ∧
    (sess.sendSwitchLabel = 0 → (trackPath sess p.label).1.sendSwitchLabel = p.label) ∧
    (sess.sendSwitchLabel ≠ 0 →
      (trackPath sess p.label).1.sendSwitchLabel = sess.sendSwitchLabel) ∧
    (p.label ≠ sess.recvSwitchLabel →
      (trackPath sess p.label).2 =
        [Event.discoveredPath p.label BROADCAST_PF sess.version sess.ip6 sess.publicKey]) ∧
    (p.label = sess.recvSwitchLabel → (trackPath sess p.label).2 = []) ∧
    (∀ (sm : SM) (evs : List Event) (setup : Bool),
      p.decryptOk = true →
      (sessionForIp6 sm sess.ip6).isSome = true →
      sessionForIp6 (finishIngress sm evs sess p setup).1 sess.ip6 =
        some ((trackPath (if setup then { sess with sendHandle := p.sendHandle } else sess)
                p.label).1)) := by
  refine ⟨?_, ?_, ?_, ?_, ?_, ?_⟩
  · unfold trackPath
    by_cases h0 : sess.sendSwitchLabel = 0 <;>
      by_cases h1 : p.label = sess.recvSwitchLabel <;>
        simp [h0, h1]
  · intro h0
    unfold trackPath
    by_cases h1 : p.label = sess.recvSwitchLabel <;> simp [h0, h1]
  · intro h0
    unfold trackPath
    by_cases h1 : p.label = sess.recvSwitchLabel <;> simp [h0, h1]
  · intro h1
    unfold trackPath
    by_cases h0 : sess.sendSwitchLabel = 0 <;> simp [h0, h1]
  · intro h1
    unfold trackPath
    by_cases h0 : sess.sendSwitchLabel = 0 <;> simp [h0, h1]
  · intro sm evs setup hdec hsome
    have hip : ((trackPath (if setup then { sess with sendHandle := p.sendHandle } else sess)
        p.label).1).ip6 = sess.ip6 := by
      rcases trackPath_preserves
        (if setup then { sess with sendHandle := p.sendHandle } else sess) p.label with
        ⟨h1, -⟩
      rcases setup <;> simpa using h1
    rw [finishIngress, if_pos hdec]
    simp only []
    rw [sessionForIp6_update _ _ _ hip, hsome]
    simp

/-- Concrete run of C5: a session with both labels zero receives a
decrypted setup packet with label 9; both labels become 9, one
DISCOVERED_PATH is emitted, and the stored session is the trackPath
result. -/
theorem C5_path_tracking_witness :
    (trackPath (⟨7, 42, 0, 12349, 0, 5, 0, 0, 0⟩ : Session) 9).1.recvSwitchLabel = 9 ∧
    (trackPath (⟨7, 42, 0, 12349, 0, 5, 0, 0, 0⟩ : Session) 9).1.sendSwitchLabel = 9 ∧
    (trackPath (⟨7, 42, 0, 12349, 0, 5, 0, 0, 0⟩ : Session) 9).2 =
      [Event.discoveredPath 9 BROADCAST_PF 5 7 42] ∧
    sessionForIp6
      (finishIngress ⟨[⟨7, 42, 0, 12349, 0, 5, 0, 0, 0⟩], 1, [], 12349, 99, 8⟩ []
        ⟨7, 42, 0, 12349, 0, 5, 0, 0, 0⟩ ⟨200, 9, 1, 42, true, 77⟩ true).1 7 =
      some ((trackPath (⟨7, 42, 0, 12349, 77, 5, 0, 0, 0⟩ : Session) 9).1) :=
  have h := C5_path_tracking ⟨200, 9, 1, 42, true, 77⟩ ⟨7, 42, 0, 12349, 0, 5, 0, 0, 0⟩
  ⟨h.1, h.2.1 rfl, h.2.2.2.1 (by decide),
   h.2.2.2.2.2 ⟨[⟨7, 42, 0, 12349, 0, 5, 0, 0, 0⟩], 1, [], 12349, 99, 8⟩ [] true rfl (by decide)⟩

/-- C4: an ingress switch packet is dropped with no forwarding, no
event and no state change whenever it is a runt (shorter than
SwitchHeader + 4 + 20), or a run packet (handle above 3) with no
matching session, or a handshake packet (nonce at most 3) that is
shorter than CryptoHeader + 4 after the switch header, carries a key
that is not a valid overlay key, or carries our own public key. -/
theorem C4_ingress_drops (addrForKey : Key → Option Ip6) (now : Nat) (sm : SM)
    (p : SwitchPacket)
    (h : p.length < SwitchHeader_SIZE + 4 + 20 ∨
         (3 < p.nonceOrHandle ∧ sessionForHandle sm p.nonceOrHandle = none) ∨
         (p.nonceOrHandle ≤ 3 ∧ p.length - SwitchHeader_SIZE < CryptoHeader_SIZE + 4) ∨
         (p.nonceOrHandle ≤ 3 ∧ addrForKey p.herKey = none) ∨
         (p.nonceOrHandle ≤ 3 ∧ p.herKey = sm.caPublicKey)) :
    incomingFromSwitchIf addrForKey now sm p = (sm, [], none) := by
  by_cases h1 : p.length < SwitchHeader_SIZE + 4 + 20
  · simp [incomingFromSwitchIf, h1]
  · rcases h with h1' | ⟨h2a, h2b⟩ | ⟨h3a, h3b⟩ | ⟨h4a, h4b⟩ | ⟨h5a, h5b⟩
    · exact absurd h1' h1
    · simp [incomingFromSwitchIf, h1, h2a, h2b]
    · simp [incomingFromSwitchIf, h1, show ¬ 3 < p.nonceOrHandle by omega, h3b]
    · by_cases h3 : p.length - SwitchHeader_SIZE < CryptoHeader_SIZE + 4
      · simp [incomingFromSwitchIf, h1, show ¬ 3 < p.nonceOrHandle by omega, h3]
      · simp [incomingFromSwitchIf, h1, show ¬ 3 < p.nonceOrHandle by omega, h3, h4b]
    · by_cases h3 : p.length - SwitchHeader_SIZE < CryptoHeader_SIZE + 4
      · simp [incomingFromSwitchIf, h1, show ¬ 3 < p.nonceOrHandle by omega, h3]
      · rw [incomingFromSwitchIf, if_neg h1, if_neg (show ¬ 3 < p.nonceOrHandle by omega),
          if_neg h3]
        cases addrForKey p.herKey with
        | none => rfl
        | some ip => simp [h5b]

/-- Concrete run of C4: a 10-byte runt against a fresh manager is
dropped without touching anything. -/
theorem C4_ingress_drops_witness :
    incomingFromSwitchIf (fun _ => none) 0 (SessionManager_new 3 99 8)
        ⟨10, 0, 1, 42, true, 0⟩ =
      (SessionManager_new 3 99 8, [], none) :=
  C4_ingress_drops (fun _ => none) 0 (SessionManager_new 3 99 8)
    ⟨10, 0, 1, 42, true, 0⟩ (Or.inl (by decide))

/-- C10: an ingress handshake packet that passes every validation step
but fails decryption is itself dropped (nothing forwarded), yet the
session that was created for the derived ip6 stays in the session
table, and the single SESSION event emitted at its creation has
already gone out: the cryptographic drop is not atomic with respect to
the session table or the event interface. -/
theorem C10_decrypt_failure_not_atomic (addrForKey : Key → Option Ip6) (now : Nat)
    (sm : SM) (p : SwitchPacket) (ip : Ip6)
    (hlen : ¬ p.length < SwitchHeader_SIZE + 4 + 20)
    (hn : p.nonceOrHandle ≤ 3)
    (hlen2 : ¬ p.length - SwitchHeader_SIZE < CryptoHeader_SIZE + 4)
    (haddr : addrForKey p.herKey = some ip)
    (hkey : p.herKey ≠ sm.caPublicKey)
    (hfresh : sessionForIp6 sm ip = none)
    (hdec : p.decryptOk = false) :
    (incomingFromSwitchIf addrForKey now sm p).2.2 = none ∧
    (incomingFromSwitchIf addrForKey now sm p).2.1 =
      [Event.session p.label BROADCAST_PF 0 ip p.herKey] ∧
    sessionForIp6 (incomingFromSwitchIf addrForKey now sm p).1 ip =
      some ((getSession sm ip p.herKey 0 p.label now).2.1) := by
  have hres : incomingFromSwitchIf addrForKey now sm p =
      ((getSession sm ip p.herKey 0 p.label now).1,
       (getSession sm ip p.herKey 0 p.label now).2.2, none) := by
    rw [incomingFromSwitchIf, if_neg hlen, if_neg (show ¬ 3 < p.nonceOrHandle by omega),
      if_neg hlen2, haddr]
    simp only [if_neg hkey]
    rw [finishIngress, if_neg (by simp [hdec])]
  rw [hres, getSession, hfresh]
  refine ⟨rfl, rfl, ?_⟩
  simp only [sessionForIp6, List.find?_append]
  rw [show sm.sessions.find? (fun s => s.ip6 == ip) = none from hfresh]
  simp

/-- Concrete run of C10: a well-formed handshake from key 42 that
fails to decrypt leaves a session for ip6 7 behind together with its
SESSION event, while forwarding nothing. -/
theorem C10_decrypt_failure_not_atomic_witness :
    (incomingFromSwitchIf (fun k => if k = 42 then some 7 else none) 5
        (SessionManager_new 3 99 8) ⟨200, 9, 1, 42, false, 0⟩).2.2 = none ∧
    (incomingFromSwitchIf (fun k => if k = 42 then some 7 else none) 5
        (SessionManager_new 3 99 8) ⟨200, 9, 1, 42, false, 0⟩).2.1 =
      [Event.session 9 BROADCAST_PF 0 7 42] ∧
    sessionForIp6 (incomingFromSwitchIf (fun k => if k = 42 then some 7 else none) 5
        (SessionManager_new 3 99 8) ⟨200, 9, 1, 42, false, 0⟩).1 7 =
      some ((getSession (SessionManager_new 3 99 8) 7 42 0 9 5).2.1) :=
  C10_decrypt_failure_not_atomic (fun k => if k = 42 then some 7 else none) 5
    (SessionManager_new 3 99 8) ⟨200, 9, 1, 42, false, 0⟩ 7
    (by decide) (by decide) (by decide) rfl (by decide) rfl rfl

/-- uint32 handle round trip: adding the base modulo 2^32 and then
subtracting it modulo 2^32 recovers any map handle below 2^32. -/
theorem sub32_add_mod (nh fh : Nat) (h : nh < U32_MOD) :
    sub32 ((nh + fh) % U32_MOD) fh = nh := by
  unfold sub32 U32_MOD at *
  omega

/-- C1: getSession merges-without-replacing when a session for the ip
already exists (version and sendSwitchLabel filled only when zero, no
event), and otherwise creates a session that is findable both under
its ip6 and under its receive handle and emits exactly one SESSION
event. -/
theorem C1_getSession_create_or_merge (sm : SM) (ip : Ip6) (pubKey : Key)
    (version label now : Nat) :
    (∀ s, sessionForIp6 sm ip = some s →
      (getSession sm ip pubKey version label now).2.2 = [] ∧
      (getSession sm ip pubKey version label now).2.1 = fillSession version label s ∧
      sessionForIp6 (getSession sm ip pubKey version label now).1 ip =
        some (fillSession version label s) ∧
      (getSession sm ip pubKey version label now).1.sessions.length =
        sm.sessions.length ∧
      (getSession sm ip pubKey version label now).1.nextHandle = sm.nextHandle) ∧
    (sessionForIp6 sm ip = none →
      (getSession sm ip pubKey version label now).2.2 =
        [Event.session label BROADCAST_PF version ip pubKey] ∧
      (getSession sm ip pubKey version label now).1.sessions =
        sm.sessions ++ [(getSession sm ip pubKey version label now).2.1] ∧
      sessionForIp6 (getSession sm ip pubKey version label now).1 ip =
        some ((getSession sm ip pubKey version label now).2.1) ∧
      (sm.nextHandle < U32_MOD →
       (∀ t ∈ sm.sessions, t.mapHandle ≠ sm.nextHandle) →
       sessionForHandle (getSession sm ip pubKey version label now).1
           ((getSession sm ip pubKey version label now).2.1.receiveHandle) =
         some ((getSession sm ip pubKey version label now).2.1))) := by
  constructor
  · intro s hs
    have hip : s.ip6 = ip := by
      have := List.find?_some hs
      simpa using this
    have hfill : (fillSession version label s).ip6 = ip := by
      simp [fillSession, hip]
    rw [getSession, hs]
    refine ⟨rfl, rfl, ?_, ?_, rfl⟩
    · have := sessionForIp6_update sm ip (fillSession version label s) hfill
      rw [hs] at this
      simpa using this
    · simp [updateSessionValue]
  · intro hn
    rw [getSession, hn]
    refine ⟨rfl, rfl, ?_, ?_⟩
    · simp only [sessionForIp6, List.find?_append]
      rw [show sm.sessions.find? (fun s => s.ip6 == ip) = none from hn]
      simp
    · intro hnh hfresh
      simp only [sessionForHandle, List.find?_append]
      rw [sub32_add_mod sm.nextHandle sm.firstHandle hnh]
      have hleft : sm.sessions.find? (fun t => t.mapHandle == sm.nextHandle) = none := by
        rw [List.find?_eq_none]
        intro t ht
        simpa using hfresh t ht
      rw [hleft]
      simp

/-- Concrete run of C1: merging onto an existing session for ip6 7
emits nothing and zero-fills, while creating on a fresh manager emits
one SESSION and the new session is findable by its receive handle. -/
theorem C1_getSession_create_or_merge_witness :
    (getSession ⟨[⟨7, 42, 0, 7, 0, 5, 100, 0, 50⟩], 1, [], 7, 99, 8⟩ 7 43 9 200 60).2.2 = [] ∧
    (getSession ⟨[⟨7, 42, 0, 7, 0, 5, 100, 0, 50⟩], 1, [], 7, 99, 8⟩ 7 43 9 200 60).2.1 =
      fillSession 9 200 ⟨7, 42, 0, 7, 0, 5, 100, 0, 50⟩ ∧
    (getSession (SessionManager_new 3 99 8) 7 42 5 100 50).2.2 =
      [Event.session 100 BROADCAST_PF 5 7 42] ∧
    sessionForHandle (getSession (SessionManager_new 3 99 8) 7 42 5 100 50).1
        ((getSession (SessionManager_new 3 99 8) 7 42 5 100 50).2.1.receiveHandle) =
      some ((getSession (SessionManager_new 3 99 8) 7 42 5 100 50).2.1) :=
  have hm := (C1_getSession_create_or_merge
    ⟨[⟨7, 42, 0, 7, 0, 5, 100, 0, 50⟩], 1, [], 7, 99, 8⟩ 7 43 9 200 60).1
    ⟨7, 42, 0, 7, 0, 5, 100, 0, 50⟩ rfl
  have hc := (C1_getSession_create_or_merge (SessionManager_new 3 99 8) 7 42 5 100 50).2 rfl
  ⟨hm.1, hm.2.1, hc.1, hc.2.2.2 (by decide) (by simp [SessionManager_new])⟩

/-- When no entry carries the key, the key count is zero. -/
theorem countP_key_of_bufIndexForKey_none :
    ∀ (l : List BufEntry) (ip : Ip6), bufIndexForKey l ip = none →
      l.countP (fun b => b.ip6 == ip) = 0 := by
  intro l
  induction l with
  | nil => intro ip _; rfl
  | cons a l ih =>
    intro ip h
    rw [bufIndexForKey] at h
    by_cases ha : a.ip6 = ip
    · simp [ha] at h
    · simp only [List.countP_cons]
      have hl : bufIndexForKey l ip = none := by
        by_contra hne
        rcases Option.ne_none_iff_exists.1 hne with ⟨j, hj⟩
        rw [if_neg (by simpa using ha), ← hj] at h
        simp at h
      simp [ih ip hl, ha]

/-- A zero key count means the key lookup fails. -/
theorem bufIndexForKey_none_of_countP_zero :
    ∀ (l : List BufEntry) (ip : Ip6), l.countP (fun b => b.ip6 == ip) = 0 →
      bufIndexForKey l ip = none := by
  intro l
  induction l with
  | nil => intro ip _; rfl
  | cons a l ih =>
    intro ip h0
    rw [List.countP_cons] at h0
    rw [bufIndexForKey]
    by_cases ha : a.ip6 = ip
    · exfalso
      simp [ha] at h0
    · have hl0 : l.countP (fun b => b.ip6 == ip) = 0 := by omega
      rw [if_neg (by simpa using ha), ih ip hl0]
      rfl

/-- Erasing the entry found by bufIndexForKey lowers the key count by
one. -/
theorem countP_key_eraseIdx_found :
    ∀ (l : List BufEntry) (ip : Ip6) (i : Nat), bufIndexForKey l ip = some i →
      (l.eraseIdx i).countP (fun b => b.ip6 == ip) =
        l.countP (fun b => b.ip6 == ip) - 1 := by
  intro l
  induction l with
  | nil => intro ip i h; simp [bufIndexForKey] at h
  | cons a l ih =>
    intro ip i h
    rw [bufIndexForKey] at h
    by_cases ha : a.ip6 = ip
    · rw [if_pos (by simpa using ha)] at h
      cases h
      simp [List.countP_cons, ha]
    · rw [if_neg (by simpa using ha)] at h
      cases hl : bufIndexForKey l ip with
      | none => rw [hl] at h; simp at h
      | some j =>
        rw [hl] at h
        have h' : j + 1 = i := by simpa using h
        subst h'
        have hc : l.countP (fun b => b.ip6 == ip) ≥ 1 := by
          by_contra hlt
          have h0 : l.countP (fun b => b.ip6 == ip) = 0 := by omega
          rw [bufIndexForKey_none_of_countP_zero l ip h0] at hl
          cases hl
        have hpa : ((fun b => b.ip6 == ip) a) = false := by simpa using ha
        simp only [List.eraseIdx_cons_succ, List.countP_cons, hpa]
        rw [ih ip j hl]
        omega

/-- C2: needsLookup first removes any queued packet for the same peer
(so the at-most-one-per-peer bound is preserved); when the buffer is
still at capacity after removal it sweeps expired entries, and if even
then at capacity it drops the new packet, changing nothing else and
emitting nothing; otherwise it inserts the packet stamped with the
current time and emits exactly one SEARCH_REQ carrying the target
ip6. -/
theorem C2_needsLookup_enqueue (sm : SM) (now : Nat) (ip : Ip6) (msgId : Nat) :
    (∀ q : Ip6, sm.bufMap.countP (fun b => b.ip6 == q) ≤ 1 →
      (needsLookup sm now ip msgId).1.bufMap.countP (fun b => b.ip6 == q) ≤ 1) ∧
    (sm.maxBufferedMessages ≤ (bufDropExisting sm ip).bufMap.length →
     sm.maxBufferedMessages ≤ (checkTimedOutBuffers now (bufDropExisting sm ip).bufMap).length →
      (needsLookup sm now ip msgId).2 = [] ∧
      (needsLookup sm now ip msgId).1.bufMap =
        checkTimedOutBuffers now (bufDropExisting sm ip).bufMap) ∧
    (sm.maxBufferedMessages ≤ (bufDropExisting sm ip).bufMap.length →
     ¬ sm.maxBufferedMessages ≤ (checkTimedOutBuffers now (bufDropExisting sm ip).bufMap).length →
      (needsLookup sm now ip msgId).2 = [Event.searchReq BROADCAST_PF ip] ∧
      (needsLookup sm now ip msgId).1.bufMap =
        checkTimedOutBuffers now (bufDropExisting sm ip).bufMap ++
          [{ ip6 := ip, msgId := msgId, timeSent := now }]) ∧
    (¬ sm.maxBufferedMessages ≤ (bufDropExisting sm ip).bufMap.length →
      (needsLookup sm now ip msgId).2 = [Event.searchReq BROADCAST_PF ip] ∧
      (needsLookup sm now ip msgId).1.bufMap =
        (bufDropExisting sm ip).bufMap ++ [{ ip6 := ip, msgId := msgId, timeSent := now }]) := by
  have hmax : (bufDropExisting sm ip).maxBufferedMessages = sm.maxBufferedMessages := by
    rw [bufDropExisting]
    cases bufIndexForKey sm.bufMap ip <;> rfl
  have hdropped : ∀ q : Ip6,
      (bufDropExisting sm ip).bufMap.countP (fun b => b.ip6 == q) ≤
        sm.bufMap.countP (fun b => b.ip6 == q) := by
    intro q
    rw [bufDropExisting]
    cases bufIndexForKey sm.bufMap ip with
    | none => exact le_refl _
    | some i =>
      exact List.Sublist.countP_le _ (List.eraseIdx_sublist sm.bufMap i)
  have hdropself : sm.bufMap.countP (fun b => b.ip6 == ip) ≤ 1 →
      (bufDropExisting sm ip).bufMap.countP (fun b => b.ip6 == ip) = 0 := by
    intro h1
    rw [bufDropExisting]
    cases hidx : bufIndexForKey sm.bufMap ip with
    | none => exact countP_key_of_bufIndexForKey_none sm.bufMap ip hidx
    | some i =>
      have h2 := countP_key_eraseIdx_found sm.bufMap ip i hidx
      show (sm.bufMap.eraseIdx i).countP (fun b => b.ip6 == ip) = 0
      omega
  have hsweep : ∀ (l : List BufEntry) (q : Ip6),
      (checkTimedOutBuffers now l).countP (fun b => b.ip6 == q) ≤
        l.countP (fun b => b.ip6 == q) := by
    intro l q
    rw [(C3_checkTimedOutBuffers_sweep now l).1]
    exact List.Sublist.countP_le _ (List.filter_sublist l)
  refine ⟨?_, ?_, ?_, ?_⟩
  · intro q hq
    rw [needsLookup]
    simp only [hmax]
    split_ifs with h1 h2
    · calc (checkTimedOutBuffers now (bufDropExisting sm ip).bufMap).countP
            (fun b => b.ip6 == q) ≤ _ := hsweep _ q
        _ ≤ _ := hdropped q
        _ ≤ 1 := hq
    · rw [bufInsert]
      simp only [List.countP_append]
      have hone : ([({ ip6 := ip, msgId := msgId, timeSent := now } : BufEntry)].countP
          (fun b => b.ip6 == q)) ≤ 1 :=
        le_trans (List.countP_le_length _) (by simp)
      by_cases hqip : q = ip
      · rw [hqip] at hq ⊢
        have h0 : (bufDropExisting sm ip).bufMap.countP (fun b => b.ip6 == ip) = 0 :=
          hdropself hq
        have hs' := hsweep (bufDropExisting sm ip).bufMap ip
        have hone' : ([({ ip6 := ip, msgId := msgId, timeSent := now } : BufEntry)].countP
            (fun b => b.ip6 == ip)) ≤ 1 :=
          le_trans (List.countP_le_length _) (by simp)
        omega
      · have hz : ([({ ip6 := ip, msgId := msgId, timeSent := now } : BufEntry)].countP
            (fun b => b.ip6 == q)) = 0 := by
          rw [List.countP_eq_zero]
          intro a ha
          simp only [List.mem_singleton] at ha
          subst ha
          simp only [beq_iff_eq]
          exact fun h => hqip h.symm
        have h1' := hsweep (bufDropExisting sm ip).bufMap q
        have h2' := hdropped q
        omega
    · rw [bufInsert]
      simp only [List.countP_append]
      by_cases hqip : q = ip
      · rw [hqip] at hq ⊢
        have h0 : (bufDropExisting sm ip).bufMap.countP (fun b => b.ip6 == ip) = 0 :=
          hdropself hq
        have hone' : ([({ ip6 := ip, msgId := msgId, timeSent := now } : BufEntry)].countP
            (fun b => b.ip6 == ip)) ≤ 1 :=
          le_trans (List.countP_le_length _) (by simp)
        omega
      · have hz : ([({ ip6 := ip, msgId := msgId, timeSent := now } : BufEntry)].countP
            (fun b => b.ip6 == q)) = 0 := by
          rw [List.countP_eq_zero]
          intro a ha
          simp only [List.mem_singleton] at ha
          subst ha
          simp only [beq_iff_eq]
          exact fun h => hqip h.symm
        have h2' := hdropped q
        omega
  · intro h1 h2
    rw [needsLookup]
    simp only [hmax]
    rw [if_pos h1, if_pos h2]
    exact ⟨rfl, rfl⟩
  · intro h1 h2
    rw [needsLookup]
    simp only [hmax]
    rw [if_pos h1, if_neg h2]
    exact ⟨rfl, rfl⟩
  · intro h1
    rw [needsLookup]
    simp only [hmax]
    rw [if_neg h1]
    exact ⟨rfl, rfl⟩

/-- Concrete run of C2: a full buffer with fresh entries drops the new
packet without an event; a buffer with room appends the entry stamped
with the current time and emits one SEARCH_REQ; the per-peer count
stays at most one. -/
theorem C2_needsLookup_enqueue_witness :
    (needsLookup ⟨[], 0, [⟨7, 1, 0⟩], 5, 99, 2⟩ 1 9 3).1.bufMap.countP
        (fun b => b.ip6 == 7) ≤ 1 ∧
    (needsLookup ⟨[], 0, [⟨7, 1, 0⟩, ⟨8, 2, 0⟩], 5, 99, 2⟩ 1 9 3).2 = [] ∧
    (needsLookup ⟨[], 0, [⟨7, 1, 0⟩, ⟨8, 2, 0⟩], 5, 99, 2⟩ 1 9 3).1.bufMap =
      checkTimedOutBuffers 1
        (bufDropExisting ⟨[], 0, [⟨7, 1, 0⟩, ⟨8, 2, 0⟩], 5, 99, 2⟩ 9).bufMap ∧
    (needsLookup ⟨[], 0, [⟨7, 1, 0⟩], 5, 99, 2⟩ 1 9 3).2 =
      [Event.searchReq BROADCAST_PF 9] ∧
    (needsLookup ⟨[], 0, [⟨7, 1, 0⟩], 5, 99, 2⟩ 1 9 3).1.bufMap =
      (bufDropExisting ⟨[], 0, [⟨7, 1, 0⟩], 5, 99, 2⟩ 9).bufMap ++ [⟨9, 3, 1⟩] :=
  have hA := C2_needsLookup_enqueue ⟨[], 0, [⟨7, 1, 0⟩, ⟨8, 2, 0⟩], 5, 99, 2⟩ 1 9 3
  have hB := C2_needsLookup_enqueue ⟨[], 0, [⟨7, 1, 0⟩], 5, 99, 2⟩ 1 9 3
  ⟨hB.1 7 (by decide), (hA.2.1 (by decide) (by decide)).1,
   (hA.2.1 (by decide) (by decide)).2,
   (hB.2.2.2 (by decide)).1, (hB.2.2.2 (by decide)).2⟩

/-- The version fill of egressFinish never touches sendSwitchLabel or
ip6. -/
theorem versionFill_fields (s : Session) (v : Nat) (c : Prop) [Decidable c] :
    ((if c then { s with version := v } else s).sendSwitchLabel = s.sendSwitchLabel) ∧
    ((if c then { s with version := v } else s).ip6 = s.ip6) := by
  by_cases h : c <;> simp [h]

/-- C6: an egress packet with no session and an all-zero key goes to
the lookup queue and nothing reaches the switch; otherwise (session
present or created from the nonzero key) the outgoing label is the
header's when nonzero, else the session's sendSwitchLabel when
nonzero, and else the packet goes to the lookup queue and nothing
reaches the switch. -/
theorem C6_egress_label_choice (now : Nat) (sm : SM) (rh : RouteHeaderMsg) :
    (sessionForIp6 sm rh.ip6 = none → rh.publicKey = 0 →
      incomingFromInsideIf now sm rh =
        ((needsLookup sm now rh.ip6 rh.msgId).1,
         (needsLookup sm now rh.ip6 rh.msgId).2, none)) ∧
    ((sessionForIp6 sm rh.ip6).isSome = true ∨ rh.publicKey ≠ 0 → rh.label ≠ 0 →
      (incomingFromInsideIf now sm rh).2.2 =
        some { ip6 := rh.ip6, label := rh.label, msgId := rh.msgId }) ∧
    (∀ s, sessionForIp6 sm rh.ip6 = some s → rh.label = 0 → s.sendSwitchLabel ≠ 0 →
      (incomingFromInsideIf now sm rh).2.2 =
        some { ip6 := rh.ip6, label := s.sendSwitchLabel, msgId := rh.msgId }) ∧
    (∀ s, sessionForIp6 sm rh.ip6 = some s → rh.label = 0 → s.sendSwitchLabel = 0 →
      (incomingFromInsideIf now sm rh).2.2 = none ∧
      ∃ sm' : SM, sm'.bufMap = sm.bufMap ∧
        sm'.maxBufferedMessages = sm.maxBufferedMessages ∧
        (incomingFromInsideIf now sm rh).2.1 = (needsLookup sm' now rh.ip6 rh.msgId).2 ∧
        (incomingFromInsideIf now sm rh).1.bufMap =
          (needsLookup sm' now rh.ip6 rh.msgId).1.bufMap) ∧
    (sessionForIp6 sm rh.ip6 = none → rh.publicKey ≠ 0 → rh.label = 0 →
      (incomingFromInsideIf now sm rh).2.2 = none ∧
      ∃ sm' : SM, sm'.bufMap = sm.bufMap ∧
        sm'.maxBufferedMessages = sm.maxBufferedMessages ∧
        (incomingFromInsideIf now sm rh).2.1 =
          Event.session rh.label BROADCAST_PF rh.version rh.ip6 rh.publicKey ::
            (needsLookup sm' now rh.ip6 rh.msgId).2 ∧
        (incomingFromInsideIf now sm rh).1.bufMap =
          (needsLookup sm' now rh.ip6 rh.msgId).1.bufMap) := by
  refine ⟨?_, ?_, ?_, ?_, ?_⟩
  · intro hn hk
    simp only [incomingFromInsideIf, hn]
    rw [if_neg (by simp [hk])]
  · intro hs hl
    cases hsi : sessionForIp6 sm rh.ip6 with
    | some s =>
      simp only [incomingFromInsideIf, hsi]
      rw [egressFinish]
      simp only []
      rw [if_pos hl]
    | none =>
      have hk : rh.publicKey ≠ 0 := by
        rcases hs with h | h
        · rw [hsi] at h; simp at h
        · exact h
      simp only [incomingFromInsideIf, hsi]
      rw [if_pos hk, egressFinish]
      simp only []
      rw [if_pos hl]
  · intro s hsi hl hsw
    simp only [incomingFromInsideIf, hsi]
    rw [egressFinish]
    simp only []
    rw [if_neg (by simpa using hl),
      if_pos (by rw [(versionFill_fields s rh.version (rh.version ≠ 0)).1]; exact hsw),
      (versionFill_fields s rh.version (rh.version ≠ 0)).1]
  · intro s hsi hl hsw
    simp only [incomingFromInsideIf, hsi]
    rw [egressFinish]
    simp only []
    rw [if_neg (by simpa using hl),
      if_neg (by rw [(versionFill_fields s rh.version (rh.version ≠ 0)).1]; simpa using hsw)]
    refine ⟨rfl, ?_⟩
    refine ⟨_, ?_, ?_, rfl, rfl⟩
    · rfl
    · rfl
  · intro hsi hk hl
    simp only [incomingFromInsideIf, hsi]
    rw [if_pos hk, getSession, hsi, egressFinish]
    simp only []
    rw [if_neg (by simpa using hl)]
    rw [if_neg (by
      by_cases hv : rh.version ≠ 0 <;> simp [hv, hl])]
    refine ⟨rfl, ?_⟩
    refine ⟨_, ?_, ?_, rfl, rfl⟩
    · rfl
    · rfl

/-- Concrete runs of C6: zero key with no session goes to lookup; a
nonzero header label wins; a zero header label falls back to the
session's sendSwitchLabel; with both zero, nothing is sent. -/
theorem C6_egress_label_choice_witness :
    incomingFromInsideIf 1 (SessionManager_new 3 99 8) ⟨9, 0, 0, 0, 3⟩ =
      ((needsLookup (SessionManager_new 3 99 8) 1 9 3).1,
       (needsLookup (SessionManager_new 3 99 8) 1 9 3).2, none) ∧
    (incomingFromInsideIf 1 (SessionManager_new 3 99 8) ⟨9, 42, 7, 13, 3⟩).2.2 =
      some ⟨9, 13, 3⟩ ∧
    (incomingFromInsideIf 1 ⟨[⟨7, 42, 0, 7, 0, 5, 100, 0, 50⟩], 1, [], 7, 99, 8⟩
        ⟨7, 0, 0, 0, 3⟩).2.2 = some ⟨7, 100, 3⟩ ∧
    (incomingFromInsideIf 1 ⟨[⟨7, 42, 0, 7, 0, 5, 0, 0, 50⟩], 1, [], 7, 99, 8⟩
        ⟨7, 0, 0, 0, 3⟩).2.2 = none ∧
    (incomingFromInsideIf 1 (SessionManager_new 3 99 8) ⟨9, 42, 7, 0, 3⟩).2.2 = none :=
  ⟨(C6_egress_label_choice 1 (SessionManager_new 3 99 8) ⟨9, 0, 0, 0, 3⟩).1 rfl rfl,
   (C6_egress_label_choice 1 (SessionManager_new 3 99 8) ⟨9, 42, 7, 13, 3⟩).2.1
     (Or.inr (by decide)) (by decide),
   (C6_egress_label_choice 1 ⟨[⟨7, 42, 0, 7, 0, 5, 100, 0, 50⟩], 1, [], 7, 99, 8⟩
     ⟨7, 0, 0, 0, 3⟩).2.2.1 ⟨7, 42, 0, 7, 0, 5, 100, 0, 50⟩ rfl rfl (by decide),
   ((C6_egress_label_choice 1 ⟨[⟨7, 42, 0, 7, 0, 5, 0, 0, 50⟩], 1, [], 7, 99, 8⟩
     ⟨7, 0, 0, 0, 3⟩).2.2.2.1 ⟨7, 42, 0, 7, 0, 5, 0, 0, 50⟩ rfl rfl rfl).1,
   ((C6_egress_label_choice 1 (SessionManager_new 3 99 8) ⟨9, 42, 7, 0, 3⟩).2.2.2.2
     rfl (by decide) rfl).1⟩

/-- C7: a NODE event with no buffered message for its ip6 creates no
session and only rewrites an existing session's sendSwitchLabel and
version from the node record; with a buffered message, the session is
created-or-merged through getSession (with the node's key, label and
version, emitting whatever getSession emits), the buffered packet is
handed to the egress send path, and its entry is removed from the
queue. -/
theorem C7_node_event (now : Nat) (sm : SM) (node : NodeRecord) :
    (bufIndexForKey sm.bufMap node.ip6 = none →
      (sessionForIp6 sm node.ip6 = none →
        incomingFromEventIf_NODE now sm node = (sm, [], none)) ∧
      (∀ s, sessionForIp6 sm node.ip6 = some s →
        incomingFromEventIf_NODE now sm node =
          (updateSessionValue sm node.ip6
            { s with sendSwitchLabel := node.path, version := node.version }, [], none))) ∧
    (∀ i bm, bufIndexForKey sm.bufMap node.ip6 = some i → sm.bufMap[i]? = some bm →
      (incomingFromEventIf_NODE now sm node).2.2 = some bm.msgId ∧
      (incomingFromEventIf_NODE now sm node).1.bufMap = sm.bufMap.eraseIdx i ∧
      (incomingFromEventIf_NODE now sm node).1.sessions =
        (getSession sm node.ip6 node.publicKey node.version node.path now).1.sessions ∧
      (incomingFromEventIf_NODE now sm node).2.1 =
        (getSession sm node.ip6 node.publicKey node.version node.path now).2.2) := by
  refine ⟨?_, ?_⟩
  · intro hb
    constructor
    · intro hs
      simp only [incomingFromEventIf_NODE, hb, hs]
    · intro s hs
      simp only [incomingFromEventIf_NODE, hb, hs]
  · intro i bm hb hbm
    have hbuf : (getSession sm node.ip6 node.publicKey node.version node.path now).1.bufMap =
        sm.bufMap := by
      rw [getSession]
      cases sessionForIp6 sm node.ip6 <;> rfl
    simp only [incomingFromEventIf_NODE, hb, hbm]
    refine ⟨by trivial, ?_, by trivial, by trivial⟩
    show ((getSession sm node.ip6 node.publicKey node.version node.path now).1.bufMap).eraseIdx i =
      sm.bufMap.eraseIdx i
    rw [hbuf]

/-- Concrete runs of C7: a NODE for an unknown ip6 with nothing
buffered is ignored; with a session present its label and version are
taken; with a buffered packet the packet is sent, the queue entry is
removed and the session is created through getSession. -/
theorem C7_node_event_witness :
    incomingFromEventIf_NODE 2 (SessionManager_new 3 99 8) ⟨7, 42, 13, 22⟩ =
      (SessionManager_new 3 99 8, [], none) ∧
    incomingFromEventIf_NODE 2 ⟨[⟨7, 42, 0, 7, 0, 5, 0, 0, 50⟩], 1, [], 7, 99, 8⟩
        ⟨7, 42, 13, 22⟩ =
      (updateSessionValue ⟨[⟨7, 42, 0, 7, 0, 5, 0, 0, 50⟩], 1, [], 7, 99, 8⟩ 7
        ⟨7, 42, 0, 7, 0, 22, 13, 0, 50⟩, [], none) ∧
    (incomingFromEventIf_NODE 2 ⟨[], 0, [⟨9, 4, 0⟩], 7, 99, 8⟩ ⟨9, 42, 13, 22⟩).2.2 =
      some 4 ∧
    (incomingFromEventIf_NODE 2 ⟨[], 0, [⟨9, 4, 0⟩], 7, 99, 8⟩ ⟨9, 42, 13, 22⟩).1.bufMap =
      [] ∧
    (incomingFromEventIf_NODE 2 ⟨[], 0, [⟨9, 4, 0⟩], 7, 99, 8⟩ ⟨9, 42, 13, 22⟩).1.sessions =
      (getSession ⟨[], 0, [⟨9, 4, 0⟩], 7, 99, 8⟩ 9 42 22 13 2).1.sessions :=
  have hB := (C7_node_event 2 ⟨[], 0, [⟨9, 4, 0⟩], 7, 99, 8⟩ ⟨9, 42, 13, 22⟩).2 0
    ⟨9, 4, 0⟩ rfl rfl
  ⟨((C7_node_event 2 (SessionManager_new 3 99 8) ⟨7, 42, 13, 22⟩).1 rfl).1 rfl,
   ((C7_node_event 2 ⟨[⟨7, 42, 0, 7, 0, 5, 0, 0, 50⟩], 1, [], 7, 99, 8⟩ ⟨7, 42, 13, 22⟩).1
     rfl).2 ⟨7, 42, 0, 7, 0, 5, 0, 0, 50⟩ rfl,
   hB.1, hB.2.1, hB.2.2.1⟩

/-- With duplicate-free ip6 keys, the ip6 lookup finds exactly the
member that carries the key. -/
theorem find?_key_of_mem (l : List Session)
    (hnd : (l.map (fun s => s.ip6)).Nodup) (s : Session) (hs : s ∈ l) :
    l.find? (fun t => t.ip6 == s.ip6) = some s := by
  induction l with
  | nil => cases hs
  | cons a l ih =>
    rw [List.map_cons, List.nodup_cons] at hnd
    by_cases ha : a.ip6 = s.ip6
    · have haeq : a = s := by
        rcases List.mem_cons.1 hs with h | h
        · exact h.symm
        · exfalso
          exact hnd.1 (by rw [ha]; exact List.mem_map.2 ⟨s, h, rfl⟩)
      simp only [List.find?_cons, show (a.ip6 == s.ip6) = true by simpa using ha]
      rw [haeq]
    · have hs' : s ∈ l := by
        rcases List.mem_cons.1 hs with h | h
        · exact absurd (congrArg (fun t => t.ip6) h.symm) ha
        · exact h
      simp only [List.find?_cons, show (a.ip6 == s.ip6) = false by simpa using ha]
      exact ih hnd.2 hs'

/-- One step of in-place session mutation preserves the handle
invariant, as long as the new value keeps the key and the handle
fields of the member it overwrites. -/
theorem handleInv_updateValue (sm : SM) (ip : Ip6) (s v : Session)
    (hs : s ∈ sm.sessions) (hsip : s.ip6 = ip)
    (hip : v.ip6 = s.ip6) (hmh : v.mapHandle = s.mapHandle)
    (hrh : v.receiveHandle = s.receiveHandle)
    (h : HandleInv sm) : HandleInv (updateSessionValue sm ip v) := by
  obtain ⟨hbound, hmnd, hind, hfh⟩ := h
  have huniq : ∀ t ∈ sm.sessions, t.ip6 = ip → t = s := by
    intro t ht htip
    exact List.inj_on_of_nodup_map hind ht hs (by rw [htip, hsip])
  have hmapeq : ∀ t ∈ sm.sessions,
      ((if t.ip6 == ip then v else t)).mapHandle = t.mapHandle := by
    intro t ht
    by_cases htip : t.ip6 = ip
    · rw [if_pos (by simpa using htip), hmh, huniq t ht htip]
    · rw [if_neg (by simpa using htip)]
  have hipeq : ∀ t ∈ sm.sessions,
      ((if t.ip6 == ip then v else t)).ip6 = t.ip6 := by
    intro t ht
    by_cases htip : t.ip6 = ip
    · rw [if_pos (by simpa using htip), hip, huniq t ht htip]
    · rw [if_neg (by simpa using htip)]
  refine ⟨?_, ?_, ?_, hfh⟩
  · intro t' ht'
    rcases List.mem_map.1 ht' with ⟨t, ht, hteq⟩
    subst hteq
    by_cases htip : t.ip6 = ip
    · rw [if_pos (by simpa using htip)]
      have hts : t = s := huniq t ht htip
      subst hts
      rcases hbound t ht with ⟨h1, h2⟩
      exact ⟨by rw [hmh]; exact h1, by rw [hrh, hmh]; exact h2⟩
    · rw [if_neg (by simpa using htip)]
      exact hbound t ht
  · show ((sm.sessions.map fun t => if t.ip6 == ip then v else t).map
      (fun s => s.mapHandle)).Nodup
    rw [List.map_map]
    have : sm.sessions.map ((fun s => s.mapHandle) ∘ fun t => if t.ip6 == ip then v else t) =
        sm.sessions.map (fun s => s.mapHandle) :=
      List.map_congr_left (fun t ht => hmapeq t ht)
    rw [this]
    exact hmnd
  · show ((sm.sessions.map fun t => if t.ip6 == ip then v else t).map
      (fun s => s.ip6)).Nodup
    rw [List.map_map]
    have : sm.sessions.map ((fun s => s.ip6) ∘ fun t => if t.ip6 == ip then v else t) =
        sm.sessions.map (fun s => s.ip6) :=
      List.map_congr_left (fun t ht => hipeq t ht)
    rw [this]
    exact hind

/-- getSession preserves the handle invariant: merging touches no
handle field, and creation appends a fresh map handle below the bumped
counter with the uint32 receive handle derived from it. -/
theorem handleInv_getSession (sm : SM) (ip : Ip6) (pubKey : Key)
    (version label now : Nat) (h : HandleInv sm) :
    HandleInv (getSession sm ip pubKey version label now).1 := by
  cases hs : sessionForIp6 sm ip with
  | some s =>
    have hmem : s ∈ sm.sessions := List.mem_of_find?_eq_some hs
    have hsip : s.ip6 = ip := by simpa using List.find?_some hs
    have hred : (getSession sm ip pubKey version label now).1 =
        updateSessionValue sm ip (fillSession version label s) := by
      rw [getSession, hs]
    rw [hred]
    exact handleInv_updateValue sm ip s (fillSession version label s) hmem hsip
      (by simp [fillSession]) (by simp [fillSession]) (by simp [fillSession]) h
  | none =>
    have hred : (getSession sm ip pubKey version label now).1 =
        { sm with
          sessions := sm.sessions ++
            [{ ip6 := ip, publicKey := pubKey, mapHandle := sm.nextHandle,
               receiveHandle := (sm.nextHandle + sm.firstHandle) % U32_MOD,
               sendHandle := 0, version := version, sendSwitchLabel := label,
               recvSwitchLabel := 0, timeOfCreation := now }],
          nextHandle := sm.nextHandle + 1 } := by
      rw [getSession, hs]
    rw [hred]
    obtain ⟨hbound, hmnd, hind, hfh⟩ := h
    refine ⟨?_, ?_, ?_, hfh⟩
    · intro t ht
      rcases List.mem_append.1 ht with ht | ht
      · rcases hbound t ht with ⟨h1, h2⟩
        refine ⟨?_, h2⟩
        show t.mapHandle < sm.nextHandle + 1
        omega
      · rcases List.mem_singleton.1 ht with rfl
        exact ⟨by show sm.nextHandle < sm.nextHandle + 1; omega, rfl⟩
    · show ((sm.sessions ++ [(_ : Session)]).map (fun s => s.mapHandle)).Nodup
      rw [List.map_append, List.nodup_append]
      refine ⟨hmnd, by simp, ?_⟩
      intro x hx
      rcases List.mem_map.1 hx with ⟨t, ht, hteq⟩
      subst hteq
      simp only [List.map_cons, List.map_nil, List.mem_singleton]
      intro hcon
      rcases hbound t ht with ⟨h1, -⟩
      have hcon' : t.mapHandle = sm.nextHandle := hcon
      omega
    · show ((sm.sessions ++ [(_ : Session)]).map (fun s => s.ip6)).Nodup
      rw [List.map_append, List.nodup_append]
      refine ⟨hind, by simp, ?_⟩
      intro x hx
      rcases List.mem_map.1 hx with ⟨t, ht, hteq⟩
      subst hteq
      simp only [List.map_cons, List.map_nil, List.mem_singleton]
      intro hcon
      have hn : sm.sessions.find? (fun s => s.ip6 == ip) = none := hs
      rw [List.find?_eq_none] at hn
      exact hn t ht (by simpa using hcon)

/-- The handle invariant only reads sessions, nextHandle and
firstHandle. -/
theorem handleInv_congr (sm sm' : SM) (hs : sm'.sessions = sm.sessions)
    (hn : sm'.nextHandle = sm.nextHandle) (hf : sm'.firstHandle = sm.firstHandle)
    (h : HandleInv sm) : HandleInv sm' := by
  unfold HandleInv at h ⊢
  rw [hs, hn, hf]
  exact h

/-- getSession returns exactly the session now stored for the ip. -/
theorem getSession_found (sm : SM) (ip : Ip6) (pubKey : Key) (version label now : Nat) :
    sessionForIp6 (getSession sm ip pubKey version label now).1 ip =
      some ((getSession sm ip pubKey version label now).2.1) := by
  cases hs : sessionForIp6 sm ip with
  | some s =>
    have hsip : s.ip6 = ip := by simpa using List.find?_some hs
    have hred1 : (getSession sm ip pubKey version label now).1 =
        updateSessionValue sm ip (fillSession version label s) := by rw [getSession, hs]
    have hred2 : (getSession sm ip pubKey version label now).2.1 =
        fillSession version label s := by rw [getSession, hs]
    rw [hred1, hred2, sessionForIp6_update sm ip _ (by simp [fillSession, hsip]), hs]
    simp
  | none =>
    rw [getSession, hs]
    simp only [sessionForIp6, List.find?_append]
    rw [show sm.sessions.find? (fun s => s.ip6 == ip) = none from hs]
    simp

/-- The session getSession returns is keyed at the requested ip. -/
theorem getSession_ip6 (sm : SM) (ip : Ip6) (pubKey : Key) (version label now : Nat) :
    (getSession sm ip pubKey version label now).2.1.ip6 = ip := by
  cases hs : sessionForIp6 sm ip with
  | some s =>
    have hsip : s.ip6 = ip := by simpa using List.find?_some hs
    rw [getSession, hs]
    simpa [fillSession] using hsip
  | none => rw [getSession, hs]

/-- getSession never touches the buffer map, the handle base, our key
or the capacity. -/
theorem getSession_keeps (sm : SM) (ip : Ip6) (pubKey : Key) (version label now : Nat) :
    (getSession sm ip pubKey version label now).1.bufMap = sm.bufMap ∧
    (getSession sm ip pubKey version label now).1.firstHandle = sm.firstHandle ∧
    (getSession sm ip pubKey version label now).1.maxBufferedMessages =
      sm.maxBufferedMessages := by
  rw [getSession]
  cases sessionForIp6 sm ip <;> exact ⟨rfl, rfl, rfl⟩

/-- needsLookup never touches the session table, the handle counter or
the handle base. -/
theorem needsLookup_keeps (sm : SM) (now : Nat) (ip : Ip6) (msgId : Nat) :
    (needsLookup sm now ip msgId).1.sessions = sm.sessions ∧
    (needsLookup sm now ip msgId).1.nextHandle = sm.nextHandle ∧
    (needsLookup sm now ip msgId).1.firstHandle = sm.firstHandle := by
  have hd : (bufDropExisting sm ip).sessions = sm.sessions ∧
      (bufDropExisting sm ip).nextHandle = sm.nextHandle ∧
      (bufDropExisting sm ip).firstHandle = sm.firstHandle := by
    rw [bufDropExisting]
    cases bufIndexForKey sm.bufMap ip <;> exact ⟨rfl, rfl, rfl⟩
  simp only [needsLookup, bufInsert]
  split_ifs <;> exact ⟨hd.1, hd.2.1, hd.2.2⟩

/-- egressFinish preserves the handle invariant. -/
theorem handleInv_egressFinish (sm : SM) (now : Nat) (evs : List Event) (sess : Session)
    (rh : RouteHeaderMsg) (hfound : sessionForIp6 sm sess.ip6 = some sess)
    (h : HandleInv sm) : HandleInv (egressFinish sm now evs sess rh).1 := by
  have hmem : sess ∈ sm.sessions := List.mem_of_find?_eq_some hfound
  have hupd : ∀ v : Session, v.ip6 = sess.ip6 → v.mapHandle = sess.mapHandle →
      v.receiveHandle = sess.receiveHandle →
      HandleInv (updateSessionValue sm sess.ip6 v) :=
    fun v a b c => handleInv_updateValue sm sess.ip6 sess v hmem rfl a b c h
  by_cases hv : rh.version ≠ 0
  · rw [egressFinish]
    simp only [if_pos hv]
    split_ifs with h1 h2
    · exact hupd _ (by simp) (by simp) (by simp)
    · exact hupd _ (by simp) (by simp) (by simp)
    · rcases needsLookup_keeps (updateSessionValue sm sess.ip6
        { sess with version := rh.version }) now rh.ip6 rh.msgId with ⟨k1, k2, k3⟩
      exact handleInv_congr _ _ k1 k2 k3 (hupd _ (by simp) (by simp) (by simp))
  · rw [egressFinish]
    simp only [if_neg hv]
    split_ifs with h1 h2
    · exact hupd _ rfl rfl rfl
    · exact hupd _ rfl rfl rfl
    · rcases needsLookup_keeps (updateSessionValue sm sess.ip6 sess) now rh.ip6 rh.msgId with
        ⟨k1, k2, k3⟩
      exact handleInv_congr _ _ k1 k2 k3 (hupd _ rfl rfl rfl)

/-- finishIngress preserves the handle invariant. -/
theorem handleInv_finishIngress (sm : SM) (evs : List Event) (sess : Session)
    (p : SwitchPacket) (setup : Bool) (hfound : sessionForIp6 sm sess.ip6 = some sess)
    (h : HandleInv sm) : HandleInv (finishIngress sm evs sess p setup).1 := by
  have hmem : sess ∈ sm.sessions := List.mem_of_find?_eq_some hfound
  rw [finishIngress]
  split_ifs with hdec hsetup
  · refine handleInv_updateValue sm sess.ip6 sess _ hmem rfl ?_ ?_ ?_ h
    · exact (trackPath_preserves { sess with sendHandle := p.sendHandle } p.label).1
    · exact (trackPath_preserves { sess with sendHandle := p.sendHandle } p.label).2.2.1
    · exact (trackPath_preserves { sess with sendHandle := p.sendHandle } p.label).2.2.2.1
  · refine handleInv_updateValue sm sess.ip6 sess _ hmem rfl ?_ ?_ ?_ h
    · exact (trackPath_preserves sess p.label).1
    · exact (trackPath_preserves sess p.label).2.2.1
    · exact (trackPath_preserves sess p.label).2.2.2.1
  · exact h

/-- The ingress pipeline preserves the handle invariant. -/
theorem handleInv_fromSwitch (addrForKey : Key → Option Ip6) (now : Nat) (sm : SM)
    (p : SwitchPacket) (h : HandleInv sm) :
    HandleInv (incomingFromSwitchIf addrForKey now sm p).1 := by
  by_cases h1 : p.length < SwitchHeader_SIZE + 4 + 20
  · rw [incomingFromSwitchIf, if_pos h1]; exact h
  by_cases h2 : 3 < p.nonceOrHandle
  · rw [incomingFromSwitchIf, if_neg h1, if_pos h2]
    cases hs : sessionForHandle sm p.nonceOrHandle with
    | none => exact h
    | some sess =>
      have hmem : sess ∈ sm.sessions := List.mem_of_find?_eq_some hs
      have hfound : sessionForIp6 sm sess.ip6 = some sess :=
        find?_key_of_mem sm.sessions h.2.2.1 sess hmem
      exact handleInv_finishIngress sm [] sess p false hfound h
  by_cases h3 : p.length - SwitchHeader_SIZE < CryptoHeader_SIZE + 4
  · rw [incomingFromSwitchIf, if_neg h1, if_neg h2, if_pos h3]; exact h
  cases haddr : addrForKey p.herKey with
  | none =>
    rw [incomingFromSwitchIf, if_neg h1, if_neg h2, if_neg h3]
    simp only [haddr]
    exact h
  | some ip =>
    rw [incomingFromSwitchIf, if_neg h1, if_neg h2, if_neg h3]
    simp only [haddr]
    by_cases hkey : p.herKey = sm.caPublicKey
    · rw [if_pos hkey]; exact h
    · rw [if_neg hkey]
      have hfound : sessionForIp6 (getSession sm ip p.herKey 0 p.label now).1
          ((getSession sm ip p.herKey 0 p.label now).2.1.ip6) =
          some ((getSession sm ip p.herKey 0 p.label now).2.1) := by
        rw [getSession_ip6]
        exact getSession_found sm ip p.herKey 0 p.label now
      exact handleInv_finishIngress _ _ _ p true hfound
        (handleInv_getSession sm ip p.herKey 0 p.label now h)

/-- The egress pipeline preserves the handle invariant. -/
theorem handleInv_fromInside (now : Nat) (sm : SM) (rh : RouteHeaderMsg)
    (h : HandleInv sm) : HandleInv (incomingFromInsideIf now sm rh).1 := by
  rw [incomingFromInsideIf]
  cases hs : sessionForIp6 sm rh.ip6 with
  | some sess =>
    have hsip : sess.ip6 = rh.ip6 := by simpa using List.find?_some hs
    exact handleInv_egressFinish sm now [] sess rh (by rw [hsip]; exact hs) h
  | none =>
    by_cases hk : rh.publicKey ≠ 0
    · rw [if_pos hk]
      have hfound : sessionForIp6 (getSession sm rh.ip6 rh.publicKey rh.version rh.label now).1
          ((getSession sm rh.ip6 rh.publicKey rh.version rh.label now).2.1.ip6) =
          some ((getSession sm rh.ip6 rh.publicKey rh.version rh.label now).2.1) := by
        rw [getSession_ip6]
        exact getSession_found sm rh.ip6 rh.publicKey rh.version rh.label now
      exact handleInv_egressFinish _ now _ _ rh hfound
        (handleInv_getSession sm rh.ip6 rh.publicKey rh.version rh.label now h)
    · rw [if_neg hk]
      rcases needsLookup_keeps sm now rh.ip6 rh.msgId with ⟨k1, k2, k3⟩
      exact handleInv_congr _ _ k1 k2 k3 h

/-- The NODE event handler preserves the handle invariant. -/
theorem handleInv_nodeEvent (now : Nat) (sm : SM) (node : NodeRecord)
    (h : HandleInv sm) : HandleInv (incomingFromEventIf_NODE now sm node).1 := by
  cases hb : bufIndexForKey sm.bufMap node.ip6 with
  | none =>
    cases hs : sessionForIp6 sm node.ip6 with
    | none =>
      simp only [incomingFromEventIf_NODE, hb, hs]
      exact h
    | some sess =>
      simp only [incomingFromEventIf_NODE, hb, hs]
      have hmem : sess ∈ sm.sessions := List.mem_of_find?_eq_some hs
      have hsip : sess.ip6 = node.ip6 := by simpa using List.find?_some hs
      exact handleInv_updateValue sm node.ip6 sess _ hmem hsip rfl rfl rfl h
  | some i =>
    cases hbm : sm.bufMap[i]? with
    | none =>
      simp only [incomingFromEventIf_NODE, hb, hbm]
      exact h
    | some bm =>
      simp only [incomingFromEventIf_NODE, hb, hbm]
      exact handleInv_congr _ _ rfl rfl rfl
        (handleInv_getSession sm node.ip6 node.publicKey node.version node.path now h)

/-- A freshly constructed manager satisfies the handle invariant, with
the random base landing in [MIN_FIRST_HANDLE, MAX_FIRST_HANDLE). -/
theorem handleInv_new (rand caPublicKey maxBuffered : Nat) :
    HandleInv (SessionManager_new rand caPublicKey maxBuffered) := by
  refine ⟨by simp [SessionManager_new], by simp [SessionManager_new],
    by simp [SessionManager_new], ?_⟩
  show MIN_FIRST_HANDLE ≤ rand % U32_MOD % (MAX_FIRST_HANDLE - MIN_FIRST_HANDLE) +
      MIN_FIRST_HANDLE ∧
    rand % U32_MOD % (MAX_FIRST_HANDLE - MIN_FIRST_HANDLE) + MIN_FIRST_HANDLE <
      MAX_FIRST_HANDLE
  unfold MIN_FIRST_HANDLE MAX_FIRST_HANDLE U32_MOD
  omega

/-- Every reachable manager state satisfies the handle invariant. -/
theorem reachable_handleInv (sm : SM) (h : Reachable sm) : HandleInv sm := by
  induction h with
  | new rand caPublicKey maxBuffered => exact handleInv_new rand caPublicKey maxBuffered
  | fromSwitch addrForKey now p _ ih => exact handleInv_fromSwitch addrForKey now _ p ih
  | fromInside now rh _ ih => exact handleInv_fromInside now _ rh ih
  | nodeEvent now node _ ih => exact handleInv_nodeEvent now _ node ih
  | timeoutTick now _ ih => exact handleInv_congr _ _ rfl rfl rfl ih

/-- C9: in every reachable state the randomly chosen handle base lies
in [4, 100000); and as long as the uint32 handle space has not wrapped
(fewer than 2^32 sessions ever created), every live session's
receiveHandle equals its map-slot handle plus the base -- hence is at
least 4, never in the reserved nonce range 0-3 -- and all receive
handles are pairwise distinct. -/
theorem C9_handle_space (sm : SM) (h : Reachable sm) :
    (MIN_FIRST_HANDLE ≤ sm.firstHandle ∧ sm.firstHandle < MAX_FIRST_HANDLE) ∧
    (sm.nextHandle + sm.firstHandle ≤ U32_MOD →
      (∀ s ∈ sm.sessions,
        s.receiveHandle = s.mapHandle + sm.firstHandle ∧
        MIN_FIRST_HANDLE ≤ s.receiveHandle) ∧
      sm.sessions.Pairwise (fun a b => a.receiveHandle ≠ b.receiveHandle)) := by
  obtain ⟨hbound, hmnd, hind, hfh⟩ := reachable_handleInv sm h
  refine ⟨hfh, ?_⟩
  intro hb
  have hform : ∀ s ∈ sm.sessions, s.receiveHandle = s.mapHandle + sm.firstHandle := by
    intro s hs
    rcases hbound s hs with ⟨h1, h2⟩
    rw [h2]
    exact Nat.mod_eq_of_lt (by omega)
  refine ⟨?_, ?_⟩
  · intro s hs
    refine ⟨hform s hs, ?_⟩
    rw [hform s hs]
    have := hfh.1
    omega
  · have hp : sm.sessions.Pairwise (fun a b => a.mapHandle ≠ b.mapHandle) :=
      List.pairwise_map.1 hmnd
    refine hp.imp_of_mem ?_
    intro a b ha hb' hne
    rw [hform a ha, hform b hb']
    intro he
    exact hne (by omega)

/-- Concrete run of C9: after creating one session from the inside
interface, the base is in range and the session's handle is base plus
slot. -/
theorem C9_handle_space_witness :
    (MIN_FIRST_HANDLE ≤
        (incomingFromInsideIf 1 (SessionManager_new 3 99 8) ⟨9, 42, 7, 13, 3⟩).1.firstHandle ∧
      (incomingFromInsideIf 1 (SessionManager_new 3 99 8) ⟨9, 42, 7, 13, 3⟩).1.firstHandle <
        MAX_FIRST_HANDLE) ∧
    (∀ s ∈ (incomingFromInsideIf 1 (SessionManager_new 3 99 8) ⟨9, 42, 7, 13, 3⟩).1.sessions,
      s.receiveHandle = s.mapHandle +
        (incomingFromInsideIf 1 (SessionManager_new 3 99 8) ⟨9, 42, 7, 13, 3⟩).1.firstHandle ∧
      MIN_FIRST_HANDLE ≤ s.receiveHandle) ∧
    ((incomingFromInsideIf 1 (SessionManager_new 3 99 8) ⟨9, 42, 7, 13, 3⟩).1.sessions.Pairwise
      (fun a b => a.receiveHandle ≠ b.receiveHandle)) :=
  have h := C9_handle_space _ (Reachable.fromInside 1 ⟨9, 42, 7, 13, 3⟩
    (Reachable.new 3 99 8))
  ⟨h.1, h.2 (by decide)⟩

/-- Dropping the reserved-block length off the front of the written
switch header plus what follows the reserved block recovers the
plaintext. -/
theorem drop_cons_block (sh A B : List Nat) (hsh : sh.length = 12) (hA : A.length = 132) :
    List.drop (120 + 12) (sh ++ List.drop sh.length (A ++ B)) = B := by
  simp [List.drop_append_eq_append_drop, List.drop_drop, hsh, hA, List.drop_eq_nil_of_le]

/-- The plaintext handed to encryption by the pre-HANDSHAKE3 branch is
the pushed receive handle followed by the payload that sat after the
route header. -/
theorem preStage_post (m : CMessage) (rh : Nat)
    (hpre : RouteHeader_SIZE ≤ m.pre.length) (hpost : RouteHeader_SIZE ≤ m.post.length) :
    (readyToSendPreStage m rh).post = be32 rh ++ m.post.drop RouteHeader_SIZE := by
  unfold RouteHeader_SIZE at *
  unfold readyToSendPreStage msgShiftUp msgShiftDown msgPush32 msgWriteFront
    RouteHeader_SIZE RouteHeader_sh_OFFSET SwitchHeader_SIZE CryptoHeader_SIZE
  dsimp only
  apply drop_cons_block
  · rw [List.length_take, List.length_drop]
    omega
  · simp only [List.length_drop, List.length_take, List.length_append]
    omega

/-- The headroom left of the reserved block is the original headroom
less the route header. -/
theorem pre3_eq (P Q68 : List Nat) (hP : 68 ≤ P.length) (hQ : Q68.length = 68) :
    List.take ((List.take ((P ++ Q68).length - 4) (P ++ Q68)).length - (120 + 12))
        (List.take ((P ++ Q68).length - 4) (P ++ Q68)) = List.take (P.length - 68) P := by
  have hL : (P ++ Q68).length = P.length + 68 := by rw [List.length_append, hQ]
  have h1 : (List.take ((P ++ Q68).length - 4) (P ++ Q68)).length = P.length + 64 := by
    rw [List.length_take, hL]
    omega
  have hn : (P.length + 64 - (120 + 12)) ⊓ ((P ++ Q68).length - 4) = P.length - 68 := by
    rw [hL]
    omega
  rw [h1, List.take_take, hn, List.take_append_eq_append_take,
    show P.length - 68 - P.length = 0 by omega]
  simp

/-- After encryption consumes the crypto-header part of the reserved
block, the headroom ends exactly with the copied switch header. -/
theorem take_reserved (pre3 sh Y : List Nat) (hsh : sh.length = 12) (hY : 120 ≤ Y.length) :
    List.take ((pre3 ++ List.take (120 + 12) (sh ++ Y)).length - 120)
        (pre3 ++ List.take (120 + 12) (sh ++ Y)) = pre3 ++ sh := by
  have h1 : (List.take (120 + 12) (sh ++ Y)).length = 120 + 12 := by
    rw [List.length_take, List.length_append, hsh]
    omega
  have h2 : (pre3 ++ List.take (120 + 12) (sh ++ Y)).length = pre3.length + (120 + 12) := by
    rw [List.length_append, h1]
  rw [h2, show pre3.length + (120 + 12) - 120 = pre3.length + 12 by omega,
    List.take_append_eq_append_take, List.take_of_length_le (by omega),
    show pre3.length + 12 - pre3.length = 12 by omega, List.take_take,
    show (12 : Nat) ⊓ (120 + 12) = 12 by omega, List.take_append_eq_append_take,
    List.take_of_length_le (by omega), show 12 - sh.length = 0 by omega]
  simp

/-- After in-place handshake encryption the headroom is the original
headroom less the route header, followed by the copied switch
header. -/
theorem encrypt_pre (m : CMessage) (rh : Nat) (cipher : List Nat)
    (hpre : RouteHeader_SIZE ≤ m.pre.length) (hpost : RouteHeader_SIZE ≤ m.post.length) :
    (encryptHandshake (readyToSendPreStage m rh) cipher).pre =
      m.pre.take (m.pre.length - RouteHeader_SIZE) ++
        (m.post.drop RouteHeader_sh_OFFSET).take SwitchHeader_SIZE := by
  unfold RouteHeader_SIZE at *
  unfold encryptHandshake readyToSendPreStage msgShiftUp msgShiftDown msgPush32 msgWriteFront
    RouteHeader_SIZE RouteHeader_sh_OFFSET SwitchHeader_SIZE CryptoHeader_SIZE
  dsimp only
  rw [pre3_eq m.pre (List.take 68 m.post) hpre (by rw [List.length_take]; omega)]
  exact take_reserved _ _ _
    (by rw [List.length_take, List.length_drop]; omega)
    (by simp only [List.length_drop, List.length_take, List.length_append]; omega)

/-- C8 as intended (the C reads an out-of-scope `header` here; see the
doc comment on readyToSendPreStage): on a message whose headroom and
length cover a route header, the pre-HANDSHAKE3 egress path pushes the
session's receiveHandle as 4 big-endian bytes in front of the payload
handed to encryption; after encryption and the final shift the switch
header copied from the route header stands at the message front,
exactly SwitchHeader_SIZE bytes before the post-encryption front,
which itself sits RouteHeader_SIZE bytes below the original front. -/
theorem C8_handshake_send_layout (m : CMessage) (receiveHandle : Nat) (cipher : List Nat)
    (hpre : RouteHeader_SIZE ≤ m.pre.length)
    (hpost : RouteHeader_SIZE ≤ m.post.length) :
    (readyToSendPreStage m receiveHandle).post =
      be32 receiveHandle ++ m.post.drop RouteHeader_SIZE ∧
    (readyToSendPreHs3 m receiveHandle cipher).post =
      (m.post.drop RouteHeader_sh_OFFSET).take SwitchHeader_SIZE ++ cipher ∧
    (readyToSendPreHs3 m receiveHandle cipher).pre.length + SwitchHeader_SIZE =
      (encryptHandshake (readyToSendPreStage m receiveHandle) cipher).pre.length ∧
    (readyToSendPreHs3 m receiveHandle cipher).pre.length =
      m.pre.length - RouteHeader_SIZE := by
  have hE := encrypt_pre m receiveHandle cipher hpre hpost
  have hshlen : ((m.post.drop RouteHeader_sh_OFFSET).take SwitchHeader_SIZE).length =
      SwitchHeader_SIZE := by
    rw [List.length_take, List.length_drop]
    unfold SwitchHeader_SIZE RouteHeader_sh_OFFSET RouteHeader_SIZE at *
    omega
  have hPlen : (m.pre.take (m.pre.length - RouteHeader_SIZE)).length =
      m.pre.length - RouteHeader_SIZE := by
    rw [List.length_take]
    omega
  have hElen : (encryptHandshake (readyToSendPreStage m receiveHandle) cipher).pre.length =
      (m.pre.length - RouteHeader_SIZE) + SwitchHeader_SIZE := by
    rw [hE, List.length_append, hPlen, hshlen]
  have hEpost : (encryptHandshake (readyToSendPreStage m receiveHandle) cipher).post =
      cipher := rfl
  refine ⟨preStage_post m receiveHandle hpre hpost, ?_, ?_, ?_⟩
  · unfold readyToSendPreHs3 msgShiftDown
    dsimp only
    rw [hElen,
      show m.pre.length - RouteHeader_SIZE + SwitchHeader_SIZE - SwitchHeader_SIZE =
        m.pre.length - RouteHeader_SIZE by omega, hE, hEpost,
      List.drop_append_eq_append_drop, List.drop_eq_nil_of_le (by rw [hPlen]),
      show m.pre.length - RouteHeader_SIZE -
        (m.pre.take (m.pre.length - RouteHeader_SIZE)).length = 0 by rw [hPlen]; omega]
    simp
  · unfold readyToSendPreHs3 msgShiftDown
    dsimp only
    rw [List.length_take, hElen]
    omega
  · unfold readyToSendPreHs3 msgShiftDown
    dsimp only
    rw [List.length_take, hElen]
    omega

/-- Concrete run of C8: a message with 70 bytes of headroom and an
80-byte body (route header plus 12 bytes of payload). -/
theorem C8_handshake_send_layout_witness :
    (readyToSendPreStage ⟨List.replicate 70 0, List.range 80⟩ 258).post =
      be32 258 ++ (List.range 80).drop RouteHeader_SIZE ∧
    (readyToSendPreHs3 ⟨List.replicate 70 0, List.range 80⟩ 258
        (List.replicate 136 7)).post =
      ((List.range 80).drop RouteHeader_sh_OFFSET).take SwitchHeader_SIZE ++
        List.replicate 136 7 ∧
    (readyToSendPreHs3 ⟨List.replicate 70 0, List.range 80⟩ 258
        (List.replicate 136 7)).pre.length + SwitchHeader_SIZE =
      (encryptHandshake (readyToSendPreStage ⟨List.replicate 70 0, List.range 80⟩ 258)
        (List.replicate 136 7)).pre.length ∧
    (readyToSendPreHs3 ⟨List.replicate 70 0, List.range 80⟩ 258
        (List.replicate 136 7)).pre.length =
      (List.replicate 70 (0 : Nat)).length - RouteHeader_SIZE :=
  C8_handshake_send_layout ⟨List.replicate 70 0, List.range 80⟩ 258 (List.replicate 136 7)
    (by decide) (by decide)

end CjdnsSM
